import Mathlib

/-!
# Verification of the AirStack cargo placement engine

A shallow embedding of the pure packing engine of `app.py` (the functions
`boxes_overlap`, `find_balanced_position`, `calculate_fuel_efficiency` and the
optimization pipeline of `optimize_cargo`), with theorems settling the frozen
claims about it.  Machine floats of the source are modelled by exact rationals;
Python's `int(...)` truncation and `round(..., n)` banker's rounding are
modelled exactly on `ℚ`.
-/

namespace AirStack

/-- A cargo request / item instance.  Mirrors the request dictionaries of the
source: `id`, `item_type`, `priority`, and the weight and dimensions copied
from the item preset. -/
structure Item where
  id : ℕ
  item_type : String
  priority : ℕ
  weight : ℚ
  length : ℚ
  width : ℚ
  height : ℚ
deriving DecidableEq, Repr

/-- A position in container coordinates: the geometric center of a packed
item's bounding box. -/
structure Position where
  x : ℚ
  y : ℚ
  z : ℚ
deriving DecidableEq, Repr

/-- An item together with its assigned position (the `item.copy()` plus
`position` dictionary the source appends to `packed`). -/
structure Placed where
  item : Item
  position : Position
deriving DecidableEq, Repr

/-- The container specification passed to `optimize_cargo`. -/
structure Container where
  max_weight : ℚ
  max_length : ℚ
  max_width : ℚ
  max_height : ℚ
deriving DecidableEq, Repr

/-- The derived `max_volume = max_length * max_width * max_height`. -/
def Container.max_volume (c : Container) : ℚ :=
  c.max_length * c.max_width * c.max_height

/-- Lower band boundary `optimal_min_weight = max_weight * 0.75`. -/
def Container.optimal_min (c : Container) : ℚ := c.max_weight * (3/4)

/-- Upper band boundary `optimal_max_weight = max_weight * 0.85`. -/
def Container.optimal_max (c : Container) : ℚ := c.max_weight * (17/20)

/-- Function `boxes_overlap` from the source: two axis-aligned boxes, each given by its
min corner and extents, fail to overlap iff they are separated along some
axis (touching counts as separated). -/
def boxes_overlap (x1 y1 z1 l1 w1 h1 x2 y2 z2 l2 w2 h2 : ℚ) : Bool :=
  !(decide (x1 + l1 ≤ x2) || decide (x2 + l2 ≤ x1) ||
    decide (y1 + w1 ≤ y2) || decide (y2 + w2 ≤ y1) ||
    decide (z1 + h1 ≤ z2) || decide (z2 + h2 ≤ z1))

/-- The grid step `0.2` of the placement search. -/
def gstep : ℚ := 1/5

/-- Python `int(...)` on a rational: truncation toward zero. -/
def pyInt (q : ℚ) : ℤ := if 0 ≤ q then ⌊q⌋ else -⌊-q⌋

/-- The list `[start + i * step for i in range(int(span / step))]` used by
each axis of the grid search. -/
def gridRange (start span : ℚ) : List ℚ :=
  (List.range (pyInt (span / gstep)).toNat).map fun (i : ℕ) => start + (i : ℚ) * gstep

/-- The min corner of a placed item's box along x, as the source recomputes it:
`p['position']['x'] - p['length']/2`. -/
def Placed.ox (p : Placed) : ℚ := p.position.x - p.item.length / 2
/-- Min corner along y. -/
def Placed.oy (p : Placed) : ℚ := p.position.y - p.item.width / 2
/-- Min corner along z. -/
def Placed.oz (p : Placed) : ℚ := p.position.z - p.item.height / 2

/-- The overlap test of the inner grid loop: does the candidate box with min
corner `(x, y, z)` and the candidate's extents overlap some already packed
box? -/
def overlapsAny (packed : List Placed) (item : Item) (x y z : ℚ) : Bool :=
  packed.any fun p =>
    boxes_overlap x y z item.length item.width item.height
      p.ox p.oy p.oz p.item.length p.item.width p.item.height

/-- Innermost loop of the grid search: scan the x origins, skip those whose
extent passes the container length, return the box center at the first
non-overlapping origin. -/
def scanX (packed : List Placed) (item : Item) (maxL : ℚ) (xs : List ℚ)
    (y z : ℚ) : Option Position :=
  xs.findSome? fun x =>
    if maxL < x + item.length then none
    else if overlapsAny packed item x y z then none
    else some ⟨x + item.length / 2, y + item.width / 2, z + item.height / 2⟩

/-- Middle loop: scan the y origins (already in scan direction), skipping
those whose extent passes the container width. -/
def scanY (packed : List Placed) (item : Item) (maxL maxW : ℚ)
    (xs ys : List ℚ) (z : ℚ) : Option Position :=
  ys.findSome? fun y =>
    if maxW < y + item.width then none
    else scanX packed item maxL xs y z

/-- Outer loop: scan the z origins, skipping those whose extent passes the
container ceiling. -/
def scanZ (packed : List Placed) (item : Item) (maxL maxW maxH : ℚ)
    (xs ys zs : List ℚ) : Option Position :=
  zs.findSome? fun z =>
    if maxH < z + item.height then none
    else scanY packed item maxL maxW xs ys z

/-- Grid search within one quadrant `(rear, right)`: x and y origins range
over the quadrant, z over the full height; on right-hand quadrants the y scan
is reversed (mirrored loading). -/
def tryQuadrant (packed : List Placed) (item : Item) (maxL maxW maxH : ℚ)
    (rear right : Bool) : Option Position :=
  let x_start := if rear then maxL / 2 else 0
  let x_end := if rear then maxL else maxL / 2
  let y_start := if right then maxW / 2 else 0
  let y_end := if right then maxW else maxW / 2
  let xs := gridRange x_start (x_end - x_start)
  let ys0 := gridRange y_start (y_end - y_start)
  let ys := if right then ys0.reverse else ys0
  let zs := gridRange 0 maxH
  scanZ packed item maxL maxW maxH xs ys zs

/-- Stable insertion used to model Python's stable `sorted`: `x` is placed
before the first element `y` with `lt x y`, i.e. after all elements whose key
is less than or equal to `x`'s. -/
def stableInsert (lt : α → α → Bool) (x : α) : List α → List α
  | [] => [x]
  | y :: ys => if lt x y then x :: y :: ys else y :: stableInsert lt x ys

/-- Python's stable `sorted` with strict key comparison `lt`. -/
def pySorted (lt : α → α → Bool) (l : List α) : List α :=
  l.foldl (fun acc x => stableInsert lt x acc) []

/-- The four quadrants `(rear, right)` in the dict insertion order
front-left, front-right, rear-left, rear-right. -/
def quadrantList : List (Bool × Bool) :=
  [(false, false), (false, true), (true, false), (true, true)]

/-- Weight accumulated in a given quadrant. -/
def quadrantWeight (flw frw rlw rrw : ℚ) : Bool × Bool → ℚ
  | (false, false) => flw
  | (false, true) => frw
  | (true, false) => rlw
  | (true, true) => rrw

/-- Function `find_balanced_position` from the source: visit the quadrants (fixed order
when nothing is packed yet, otherwise sorted ascending by accumulated weight)
and return the first non-overlapping grid position. -/
def find_balanced_position (packed : List Placed) (item : Item)
    (maxL maxW maxH flw frw rlw rrw : ℚ) : Option Position :=
  let left_weight := flw + rlw
  let right_weight := frw + rrw
  let total_weight := left_weight + right_weight
  let target_quadrants :=
    if total_weight = 0 then quadrantList
    else pySorted
      (fun q1 q2 =>
        decide (quadrantWeight flw frw rlw rrw q1 < quadrantWeight flw frw rlw rrw q2))
      quadrantList
  target_quadrants.findSome? fun q =>
    tryQuadrant packed item maxL maxW maxH q.1 q.2

/-! ## The load optimizer (`optimize_cargo`) -/

/-- Mutable state of the packing loops of `optimize_cargo`. -/
structure PackState where
  packed : List Placed
  current_weight : ℚ
  current_volume : ℚ
  front_left_weight : ℚ
  front_right_weight : ℚ
  rear_left_weight : ℚ
  rear_right_weight : ℚ
  packed_items_set : List ℕ
  in_optimal_range : Bool
deriving DecidableEq, Repr

/-- The initial state of `optimize_cargo`. -/
def initState : PackState := ⟨[], 0, 0, 0, 0, 0, 0, [], false⟩

/-- Membership test for the index set `packed_items_set`. -/
def memN (n : ℕ) (l : List ℕ) : Bool := l.any fun m => decide (m = n)

/-- Append a placed item and update the running weight, volume and quadrant
accumulators (the success branch of the packing attempt, minus the
`packed_items_set` bookkeeping which only the multi-pass loop performs). -/
def placeItem (cfg : Container) (st : PackState) (item : Item)
    (pos : Position) : PackState :=
  let base :=
    { st with
      packed := st.packed ++ [Placed.mk item pos]
      current_weight := st.current_weight + item.weight
      current_volume := st.current_volume + item.length * item.width * item.height }
  let in_front := decide (pos.x < cfg.max_length / 2)
  let on_left := decide (pos.y < cfg.max_width / 2)
  if in_front && on_left then
    { base with front_left_weight := st.front_left_weight + item.weight }
  else if in_front then
    { base with front_right_weight := st.front_right_weight + item.weight }
  else if on_left then
    { base with rear_left_weight := st.rear_left_weight + item.weight }
  else
    { base with rear_right_weight := st.rear_right_weight + item.weight }

/-- One packing attempt: the capacity, volume and single-dimension checks
followed by the call to `find_balanced_position`; `none` when the item cannot
be admitted at this state. -/
def attemptPack (cfg : Container) (st : PackState) (item : Item) :
    Option PackState :=
  let item_volume := item.length * item.width * item.height
  if st.current_weight + item.weight ≤ cfg.max_weight ∧
      st.current_volume + item_volume ≤ cfg.max_volume ∧
      item.length ≤ cfg.max_length ∧
      item.width ≤ cfg.max_width ∧
      item.height ≤ cfg.max_height then
    match find_balanced_position st.packed item cfg.max_length cfg.max_width
        cfg.max_height st.front_left_weight st.front_right_weight
        st.rear_left_weight st.rear_right_weight with
    | some pos => some (placeItem cfg st item pos)
    | none => none
  else none

/-- Body of the multi-pass admission loop for a single indexed candidate:
skip if already packed or below the pass's priority floor, apply the
optimal-band guard, then attempt to pack. -/
def admitStep (cfg : Container) (minP : ℕ) (st : PackState)
    (e : ℕ × Item) : PackState :=
  if memN e.1 st.packed_items_set then st
  else if e.2.priority < minP then st
  else if cfg.optimal_min ≤ st.current_weight ∧
      st.current_weight ≤ cfg.optimal_max then
    let st' := { st with in_optimal_range := true }
    if cfg.optimal_max < st'.current_weight + e.2.weight ∧ e.2.priority < 8 then
      st'
    else
      match attemptPack cfg st' e.2 with
      | some st'' => { st'' with packed_items_set := e.1 :: st''.packed_items_set }
      | none => st'
  else
    match attemptPack cfg st e.2 with
    | some st'' => { st'' with packed_items_set := e.1 :: st''.packed_items_set }
    | none => st

/-- Check `any(idx not in packed_items_set and priority >= 9 ...)`: a critical item
remains unpacked. -/
def criticalRemaining (items : List (ℕ × Item)) (st : PackState) : Bool :=
  items.any fun e => !memN e.1 st.packed_items_set && decide (9 ≤ e.2.priority)

/-- The multi-pass loop over the remaining pass numbers, with the early-exit
break once in the optimal band after pass 3 with no critical items left. -/
def passLoop (cfg : Container) (items : List (ℕ × Item)) :
    List ℕ → PackState → PackState
  | [], st => st
  | p :: rest, st =>
    let st' := items.foldl (admitStep cfg (10 - p)) st
    if st'.in_optimal_range && decide (3 ≤ p) && !criticalRemaining items st' then
      st'
    else passLoop cfg items rest st'

/-- Strict comparison corresponding to the sort key
`(-priority, -weight)`. -/
def requestLt (a b : Item) : Bool :=
  decide (b.priority < a.priority) ||
    (decide (a.priority = b.priority) && decide (b.weight < a.weight))

/-- List `sorted_requests`: the snapshot sorted by priority descending then weight
descending, stable. -/
def sorted_requests (reqs : List Item) : List Item := pySorted requestLt reqs

/-- The distinct priorities present among the requests (`priority_groups`
keys). -/
def priorityKeys (reqs : List Item) : List ℕ :=
  ((sorted_requests reqs).map (·.priority)).dedup

/-- Group `priority_groups[p]`: the sorted requests of priority `p`, in order. -/
def priorityGroup (reqs : List Item) (p : ℕ) : List Item :=
  (sorted_requests reqs).filter fun r => decide (r.priority = p)

/-- Descending sort of a list of priorities (`sorted(..., reverse=True)`). -/
def sortDesc (l : List ℕ) : List ℕ :=
  pySorted (fun a b : ℕ => decide (b < a)) l

/-- List `items_by_priority`, enumerated with the loop index used by
`packed_items_set`. -/
def items_by_priority (reqs : List Item) : List (ℕ × Item) :=
  ((sortDesc (priorityKeys reqs)).flatMap (priorityGroup reqs)).enum

/-- The state after the multi-pass admission loop (passes 0 to 9). -/
def multipass (cfg : Container) (reqs : List Item) : PackState :=
  passLoop cfg (items_by_priority reqs) (List.range 10) initState

/-- The unpacked list: candidates never packed, in `items_by_priority`
order. -/
def unpackedOf (reqs : List Item) (st : PackState) : List Item :=
  ((items_by_priority reqs).filter fun e => !memN e.1 st.packed_items_set).map (·.2)

/-! ## Item presets and top-off backfill -/

/-- Dimensions and weight of a catalog entry. -/
structure Preset where
  weight : ℚ
  length : ℚ
  width : ℚ
  height : ℚ
deriving DecidableEq, Repr

/-- The static `ITEM_PRESETS` catalog (colors omitted; they play no role in
the engine).  `none` for an unknown item type — the source would raise
`KeyError` there, which is unreachable for ingestion-validated requests. -/
def ITEM_PRESETS : String → Option Preset
  | "Water Case (24 bottles)" => some ⟨18, 45/100, 30/100, 25/100⟩
  | "Dozen NP Food Cans" => some ⟨10, 40/100, 30/100, 22/100⟩
  | "First-Aid Kit" => some ⟨4, 35/100, 25/100, 20/100⟩
  | "Toilet Paper (12-Roll Pack)" => some ⟨3, 40/100, 30/100, 25/100⟩
  | "Sanitary Pads (20 Pack)" => some ⟨1, 30/100, 20/100, 12/100⟩
  | "Clothing Pack (Jacket + Undergarments)" => some ⟨5, 45/100, 35/100, 25/100⟩
  | "Blanket (Rolled)" => some ⟨2, 50/100, 25/100, 25/100⟩
  | "Pet Supplies Pack" => some ⟨6, 50/100, 30/100, 30/100⟩
  | "Baby Formula (Case)" => some ⟨8, 40/100, 30/100, 25/100⟩
  | _ => none

/-- Check `any(p >= 8 for p in priority_groups.keys())`. -/
def has_high_priority (reqs : List Item) : Bool :=
  (priorityKeys reqs).any fun p => decide (8 ≤ p)

/-- The synthetic item the top-off creates: fresh id `10000 + attempts`,
specs from the catalog. -/
def mkTopoffItem (attempts p : ℕ) (t : String) (spec : Preset) : Item :=
  ⟨10000 + attempts, t, p, spec.weight, spec.length, spec.width, spec.height⟩

/-- One tier of the top-off rotation (`for priority in high_priorities`).
The accumulator carries the state, the `added_something` flag, and whether
the tier loop has broken out.  `setOrder` models the unspecified iteration
order of Python's `list(set(...))` over the tier's item types. -/
def topoffTier (setOrder : List String → List String) (cfg : Container)
    (reqs : List Item) (attempts : ℕ) (acc : PackState × Bool × Bool)
    (p : ℕ) : PackState × Bool × Bool :=
  let (st, added, broke) := acc
  if broke then acc
  else if cfg.optimal_min ≤ st.current_weight then (st, added, true)
  else
    let items_at_priority := priorityGroup reqs p
    if items_at_priority.isEmpty then acc
    else
      let unique_types := setOrder (items_at_priority.map (·.item_type))
      match unique_types.get? (attempts % unique_types.length) with
      | none => acc
      | some t =>
        match ITEM_PRESETS t with
        | none => acc
        | some spec =>
          let new_item := mkTopoffItem attempts p t spec
          match attemptPack cfg st new_item with
          | some st' =>
            (st', true, decide (cfg.optimal_min ≤ st'.current_weight))
          | none => acc

/-- One iteration of the top-off while loop: rotate once through the eligible
tiers. -/
def topoffPass (setOrder : List String → List String) (cfg : Container)
    (reqs : List Item) (hps : List ℕ) (attempts : ℕ) (st : PackState) :
    PackState × Bool :=
  let r := hps.foldl (topoffTier setOrder cfg reqs attempts) (st, false, false)
  (r.1, r.2.1)

/-- The bounded top-off while loop (`attempts < 1000` encoded by the fuel,
which starts at 1000 while `attempts` starts at 0). -/
def topoffLoop (setOrder : List String → List String) (cfg : Container)
    (reqs : List Item) (hps : List ℕ) :
    ℕ → ℕ → PackState → PackState
  | 0, _, st => st
  | fuel + 1, attempts, st =>
    if st.current_weight < cfg.optimal_min then
      let attempts' := attempts + 1
      let r := topoffPass setOrder cfg reqs hps attempts' st
      if r.2 then topoffLoop setOrder cfg reqs hps fuel attempts' r.1 else r.1
    else st

/-- The whole top-off backfill block. -/
def topoff (setOrder : List String → List String) (cfg : Container)
    (reqs : List Item) (st : PackState) : PackState :=
  let hps := sortDesc ((priorityKeys reqs).filter fun p => decide (8 ≤ p))
  if hps.isEmpty then st
  else topoffLoop setOrder cfg reqs hps 1000 0 st

/-! ## Fuel model and plan summarizer -/

/-- Round-half-to-even on a rational, as Python's `round` ties-to-even. -/
def pyRoundHE (q : ℚ) : ℤ :=
  let f := ⌊q⌋
  let r := q - f
  if r < 1/2 then f
  else if 1/2 < r then f + 1
  else if f % 2 = 0 then f else f + 1

/-- Python `round(q, n)` on a rational. -/
def pyRound (q : ℚ) (n : ℕ) : ℚ := (pyRoundHE (q * 10 ^ n) : ℚ) / 10 ^ n

/-- Result of `calculate_fuel_efficiency`. -/
structure FuelMetrics where
  fuel_used_kg : ℚ
  fuel_efficiency_ratio : ℚ
  efficiency_rating : String
  capacity_utilization : ℚ
deriving DecidableEq, Repr

/-- Function `calculate_fuel_efficiency("UH-60 Black Hawk", cargo_weight)`: the only
aircraft preset has `max_weight = 1200`, `fuel_burn_empty = 320`,
`fuel_burn_per_kg = 0.08`, `cruise_speed = 268`; default mission 100 km. -/
def calculate_fuel_efficiency (cargo_weight : ℚ) : FuelMetrics :=
  let total_fuel_burn_rate := 320 + cargo_weight * (8/100)
  let flight_time : ℚ := 100 / 268
  let fuel_used := total_fuel_burn_rate * flight_time
  let fuel_efficiency := if 0 < fuel_used then cargo_weight / fuel_used else 0
  let capacity_utilization := cargo_weight / 1200 * 100
  let efficiency_rating :=
    if 75 ≤ capacity_utilization ∧ capacity_utilization ≤ 85 then "Optimal"
    else if 85 < capacity_utilization then "Good"
    else if 60 ≤ capacity_utilization then "Moderate"
    else "Low"
  ⟨pyRound fuel_used 1, pyRound fuel_efficiency 2, efficiency_rating,
    pyRound capacity_utilization 1⟩

/-- The `stats` dictionary of the returned plan. -/
structure Stats where
  total_weight : ℚ
  max_weight : ℚ
  weight_utilization : ℚ
  total_volume : ℚ
  max_volume : ℚ
  volume_utilization : ℚ
  items_packed : ℕ
  items_unpacked : ℕ
  cog_x : ℚ
  cog_y : ℚ
  cog_z : ℚ
  balance_score : ℚ
  left_weight : ℚ
  right_weight : ℚ
deriving DecidableEq, Repr

/-- The load plan returned by `optimize_cargo` (the constant aircraft echo
block is omitted). -/
structure LoadPlan where
  packed : List Placed
  unpacked : List Item
  stats : Stats
  fuel_efficiency : FuelMetrics
deriving DecidableEq, Repr

/-- Center of gravity, balance score and utilization summary.  The source
divides by `current_weight` in the center-of-gravity computation; with the
positive preset weights that sum is positive whenever `packed` is nonempty,
and rational division by zero is total here. -/
def summarize (cfg : Container) (st : PackState) (unpacked : List Item) :
    LoadPlan :=
  let cog_x := if st.packed.isEmpty then 0 else
    (st.packed.map fun p => p.position.x * p.item.weight).sum / st.current_weight
  let cog_y := if st.packed.isEmpty then 0 else
    (st.packed.map fun p => p.position.y * p.item.weight).sum / st.current_weight
  let cog_z := if st.packed.isEmpty then 0 else
    (st.packed.map fun p => p.position.z * p.item.weight).sum / st.current_weight
  let balance_x := 100 - |cog_x - cfg.max_length / 2| / (cfg.max_length / 2) * 100
  let balance_y := 100 - |cog_y - cfg.max_width / 2| / (cfg.max_width / 2) * 100
  let balance_score := if st.packed.isEmpty then 100 else (balance_x + balance_y) / 2
  let left_weight := if st.packed.isEmpty then 0 else
    st.front_left_weight + st.rear_left_weight
  let right_weight := if st.packed.isEmpty then 0 else
    st.front_right_weight + st.rear_right_weight
  let weight_utilization :=
    if 0 < cfg.max_weight then st.current_weight / cfg.max_weight * 100 else 0
  let volume_utilization :=
    if 0 < cfg.max_volume then st.current_volume / cfg.max_volume * 100 else 0
  { packed := st.packed
    unpacked := unpacked
    stats :=
      { total_weight := st.current_weight
        max_weight := cfg.max_weight
        weight_utilization := pyRound weight_utilization 2
        total_volume := st.current_volume
        max_volume := cfg.max_volume
        volume_utilization := pyRound volume_utilization 2
        items_packed := st.packed.length
        items_unpacked := unpacked.length
        cog_x := pyRound cog_x 2
        cog_y := pyRound cog_y 2
        cog_z := pyRound cog_z 2
        balance_score := pyRound balance_score 1
        left_weight := pyRound left_weight 1
        right_weight := pyRound right_weight 1 }
    fuel_efficiency := calculate_fuel_efficiency st.current_weight }

/-- Does the top-off backfill block execute?  This is the source's branch
condition `current_weight < optimal_min_weight and has_high_priority`
evaluated at the post-multipass state. -/
def topoff_runs (reqs : List Item) (cfg : Container) : Bool :=
  decide ((multipass cfg reqs).current_weight < cfg.optimal_min) &&
    has_high_priority reqs

/-- The whole `optimize_cargo` pipeline, parameterized by the iteration order
`setOrder` that models Python's `list(set(...))` over item-type strings. -/
def optimize_cargo (setOrder : List String → List String) (reqs : List Item)
    (cfg : Container) : LoadPlan :=
  let st := multipass cfg reqs
  let unpacked := unpackedOf reqs st
  let st' := if topoff_runs reqs cfg then topoff setOrder cfg reqs st else st
  summarize cfg st' unpacked

/-- Specialization `optimize` with one concrete faithful choice of set order (first, i.e.
deduplicated, enumeration of the type strings). -/
def optimize (reqs : List Item) (cfg : Container) : LoadPlan :=
  optimize_cargo List.dedup reqs cfg

/-! ## Verification-layer predicates -/

/-- The non-overlap relation maintained along `packed`, oriented the way the
source checks it: the later item `q` was tested against the earlier item `p`
by `boxes_overlap(q-box, p-box)`. -/
def noOverlap (p q : Placed) : Prop :=
  boxes_overlap q.ox q.oy q.oz q.item.length q.item.width q.item.height
    p.ox p.oy p.oz p.item.length p.item.width p.item.height = false

/-- A point strictly inside a placed item's bounding box (box centered at the
position, with the item's extents). -/
def strictInside (t : ℚ × ℚ × ℚ) (p : Placed) : Prop :=
  p.position.x - p.item.length / 2 < t.1 ∧ t.1 < p.position.x + p.item.length / 2 ∧
  p.position.y - p.item.width / 2 < t.2.1 ∧ t.2.1 < p.position.y + p.item.width / 2 ∧
  p.position.z - p.item.height / 2 < t.2.2 ∧ t.2.2 < p.position.z + p.item.height / 2

/-- A placed item's bounding box lies inside
`[0, max_length] × [0, max_width] × [0, max_height]`. -/
def inContainer (cfg : Container) (p : Placed) : Prop :=
  0 ≤ p.position.x - p.item.length / 2 ∧
    p.position.x + p.item.length / 2 ≤ cfg.max_length ∧
  0 ≤ p.position.y - p.item.width / 2 ∧
    p.position.y + p.item.width / 2 ≤ cfg.max_width ∧
  0 ≤ p.position.z - p.item.height / 2 ∧
    p.position.z + p.item.height / 2 ≤ cfg.max_height

/-- Sum of the weights of a packed list. -/
def sumWeight (l : List Placed) : ℚ := (l.map fun p => p.item.weight).sum

/-- Sum of the volumes of a packed list. -/
def sumVolume (l : List Placed) : ℚ :=
  (l.map fun p => p.item.length * p.item.width * p.item.height).sum

/-- The state invariant of the packing loops. -/
structure Inv (cfg : Container) (st : PackState) : Prop where
  pairwise : st.packed.Pairwise noOverlap
  bounds : ∀ p ∈ st.packed, inContainer cfg p
  weight_eq : st.current_weight = sumWeight st.packed
  volume_eq : st.current_volume = sumVolume st.packed
  quad_eq : st.front_left_weight + st.front_right_weight +
    st.rear_left_weight + st.rear_right_weight = st.current_weight
  weight_cap : st.current_weight = 0 ∨ st.current_weight ≤ cfg.max_weight
  volume_cap : st.current_volume = 0 ∨ st.current_volume ≤ cfg.max_volume

/-- Conservation invariant of the multi-pass loop: the packed items are, as a
multiset, exactly the candidates whose index is in `packed_items_set`. -/
def Conserves (items : List (ℕ × Item)) (st : PackState) : Prop :=
  List.Perm (st.packed.map (·.item))
    ((items.filter fun e => memN e.1 st.packed_items_set).map (·.2))

/-- The top-off phase only appends synthetic items, whose ids are
`10000 + attempts` with `attempts ≥ 1`. -/
def TopExt (base : List Placed) (st : PackState) : Prop :=
  ∃ extra, st.packed = base ++ extra ∧ ∀ p ∈ extra, 10001 ≤ p.item.id

/-- The packing state from which the plan is summarized: the multi-pass
result, refined by the top-off backfill exactly when its guard holds. -/
def finalState (setOrder : List String → List String) (reqs : List Item)
    (cfg : Container) : PackState :=
  if topoff_runs reqs cfg then topoff setOrder cfg reqs (multipass cfg reqs)
  else multipass cfg reqs

/-! ## Concrete scenarios used by counterexamples and witnesses -/

/-- Two priority-10 requests of distinct catalog types; light enough that the
top-off backfill runs and rotates between the two types. -/
def reqB : List Item :=
  [⟨1, "Water Case (24 bottles)", 10, 18, 45/100, 30/100, 25/100⟩,
   ⟨2, "Dozen NP Food Cans", 10, 10, 40/100, 30/100, 22/100⟩]

/-- A 2 m × 2 m × 1 m container with 100 kg capacity. -/
def cB : Container := ⟨100, 2, 2, 1⟩

/-- Priority 10 / 8 / 7 requests of weights 80 / 10 / 5: the priority-8 item
pushes the weight past the optimal band, after which the priority-7 item is
still admitted. -/
def reqC : List Item :=
  [⟨1, "X", 10, 80, 2/5, 2/5, 2/5⟩,
   ⟨2, "Y", 8, 10, 2/5, 2/5, 2/5⟩,
   ⟨3, "Z", 7, 5, 2/5, 2/5, 2/5⟩]

/-- An 0.8 m cube: in a 1 m³ container its box crosses the quadrant
mid-planes. -/
def itD : Item := ⟨1, "Q", 5, 1, 4/5, 4/5, 4/5⟩

/-- A container with negative weight capacity (the degenerate container of
spec §7). -/
def cNeg : Container := ⟨-1, 1, 1, 1⟩

/-- A single light request used by witness instantiations. -/
def reqA : List Item := [⟨1, "Water Case (24 bottles)", 7, 18, 45/100, 30/100, 25/100⟩]

/-- The UH-60 Black Hawk cargo bay of the aircraft preset. -/
def cA : Container := ⟨1200, 38/10, 22/10, 13/10⟩

/-- A priority-7 candidate of weight 10 for the band-guard witness. -/
def itY : Item := ⟨2, "Y", 7, 10, 2/5, 2/5, 2/5⟩

/-- A priority-7 candidate of weight 5 for the band-guard witness. -/
def itZ : Item := ⟨3, "Z", 7, 5, 2/5, 2/5, 2/5⟩

/-- A packing state with accumulated weight 80, inside the optimal band of
`cB`. -/
def stW : PackState := ⟨[], 80, 0, 80, 0, 0, 0, [], false⟩

/-- A packing state with accumulated weight 90, above the optimal band of
`cB`. -/
def stV : PackState := ⟨[], 90, 0, 90, 0, 0, 0, [], false⟩

/-- The state reached by packing `itZ` into `stV`: with all of `stV`'s
weight in the front-left quadrant, the search starts at the front-right
quadrant and its mirrored y-scan places the box against the right wall. -/
def stVPacked : PackState := placeItem cB stV itZ ⟨1/5, 9/5, 1/5⟩

/-! ## Facts about the placement search -/

theorem boxes_overlap_eq_false_iff {x1 y1 z1 l1 w1 h1 x2 y2 z2 l2 w2 h2 : ℚ} :
    boxes_overlap x1 y1 z1 l1 w1 h1 x2 y2 z2 l2 w2 h2 = false ↔
      (x1 + l1 ≤ x2 ∨ x2 + l2 ≤ x1 ∨ y1 + w1 ≤ y2 ∨ y2 + w2 ≤ y1 ∨
        z1 + h1 ≤ z2 ∨ z2 + h2 ≤ z1) := by
  simp only [boxes_overlap, Bool.not_eq_false', Bool.or_eq_true, decide_eq_true_eq]
  tauto

theorem gstep_pos : (0 : ℚ) < gstep := by norm_num [gstep]

theorem mem_gridRange {x s d : ℚ} (h : x ∈ gridRange s d) :
    s ≤ x ∧ gstep ≤ d := by
  unfold gridRange at h
  obtain ⟨i, hi, rfl⟩ := List.mem_map.mp h
  have hi' := List.mem_range.mp hi
  constructor
  · have : (0:ℚ) ≤ (i : ℚ) * gstep :=
      mul_nonneg (Nat.cast_nonneg i) (le_of_lt gstep_pos)
    linarith
  · have h1 : 1 ≤ pyInt (d / gstep) := by
      by_contra hc
      push_neg at hc
      have : (pyInt (d / gstep)).toNat = 0 := Int.toNat_eq_zero.mpr (by omega)
      omega
    have h0 : 0 ≤ d / gstep := by
      by_contra hc
      push_neg at hc
      have hq : pyInt (d / gstep) = -⌊-(d / gstep)⌋ := by
        unfold pyInt
        rw [if_neg (not_le.mpr hc)]
      have : (0:ℤ) ≤ ⌊-(d / gstep)⌋ :=
        Int.floor_nonneg.mpr (by linarith)
      omega
    have hfl : pyInt (d / gstep) = ⌊d / gstep⌋ := by
      unfold pyInt
      rw [if_pos h0]
    have : (1:ℚ) ≤ d / gstep := by
      have := Int.le_floor.mp (by omega : (1:ℤ) ≤ ⌊d / gstep⌋)
      exact_mod_cast this
    calc gstep = gstep * 1 := by ring
    _ ≤ gstep * (d / gstep) := by
        have := gstep_pos
        nlinarith
    _ = d := by
        rw [mul_comm]
        exact div_mul_cancel₀ d (ne_of_gt gstep_pos)

theorem overlapsAny_eq_false {packed : List Placed} {item : Item} {x y z : ℚ}
    (h : overlapsAny packed item x y z = false) :
    ∀ p ∈ packed, boxes_overlap x y z item.length item.width item.height
      p.ox p.oy p.oz p.item.length p.item.width p.item.height = false := by
  intro p hp
  unfold overlapsAny at h
  have := List.any_eq_false.mp h p hp
  simpa using this

theorem scanX_eq_some {packed : List Placed} {item : Item} {maxL : ℚ}
    {xs : List ℚ} {y z : ℚ} {pos : Position}
    (h : scanX packed item maxL xs y z = some pos) :
    ∃ x ∈ xs, x + item.length ≤ maxL ∧
      overlapsAny packed item x y z = false ∧
      pos = ⟨x + item.length / 2, y + item.width / 2, z + item.height / 2⟩ := by
  obtain ⟨x, hx, hfx⟩ := List.exists_of_findSome?_eq_some h
  refine ⟨x, hx, ?_⟩
  split_ifs at hfx with h1 h2
  exact ⟨le_of_not_lt h1, by simpa using h2, (Option.some.inj hfx).symm⟩

theorem scanY_eq_some {packed : List Placed} {item : Item} {maxL maxW : ℚ}
    {xs ys : List ℚ} {z : ℚ} {pos : Position}
    (h : scanY packed item maxL maxW xs ys z = some pos) :
    ∃ y ∈ ys, y + item.width ≤ maxW ∧
      scanX packed item maxL xs y z = some pos := by
  obtain ⟨y, hy, hfy⟩ := List.exists_of_findSome?_eq_some h
  refine ⟨y, hy, ?_⟩
  split_ifs at hfy with h1
  exact ⟨le_of_not_lt h1, hfy⟩

theorem scanZ_eq_some {packed : List Placed} {item : Item} {maxL maxW maxH : ℚ}
    {xs ys zs : List ℚ} {pos : Position}
    (h : scanZ packed item maxL maxW maxH xs ys zs = some pos) :
    ∃ z ∈ zs, z + item.height ≤ maxH ∧
      scanY packed item maxL maxW xs ys z = some pos := by
  obtain ⟨z, hz, hfz⟩ := List.exists_of_findSome?_eq_some h
  refine ⟨z, hz, ?_⟩
  split_ifs at hfz with h1
  exact ⟨le_of_not_lt h1, hfz⟩

/-- Every position the quadrant grid search returns satisfies: the box lies
inside the container (in particular origins are nonnegative even for the
rear/right quadrants), and the box passes the overlap test against every
already packed box. -/
theorem tryQuadrant_eq_some {packed : List Placed} {item : Item}
    {maxL maxW maxH : ℚ} {rear right : Bool} {pos : Position}
    (h : tryQuadrant packed item maxL maxW maxH rear right = some pos) :
    (0 ≤ pos.x - item.length / 2 ∧ pos.x + item.length / 2 ≤ maxL) ∧
    (0 ≤ pos.y - item.width / 2 ∧ pos.y + item.width / 2 ≤ maxW) ∧
    (0 ≤ pos.z - item.height / 2 ∧ pos.z + item.height / 2 ≤ maxH) ∧
    ∀ p ∈ packed,
      boxes_overlap (pos.x - item.length / 2) (pos.y - item.width / 2)
        (pos.z - item.height / 2) item.length item.width item.height
        p.ox p.oy p.oz p.item.length p.item.width p.item.height = false := by
  simp only [tryQuadrant] at h
  obtain ⟨z, hz, hzH, hy⟩ := scanZ_eq_some h
  obtain ⟨y, hy', hyW, hx⟩ := scanY_eq_some hy
  obtain ⟨x, hx', hxL, hov, rfl⟩ := scanX_eq_some hx
  have hz0 : 0 ≤ z := (mem_gridRange hz).1
  have hxfacts : 0 ≤ x := by
    cases rear with
    | false =>
      simpa using (mem_gridRange hx').1
    | true =>
      have h1 := (mem_gridRange hx').1
      have h2 := (mem_gridRange hx').2
      have := gstep_pos
      simp only [Bool.ite_eq_true_distrib] at h1 h2
      norm_num at h1 h2
      linarith
  have hyfacts : 0 ≤ y := by
    cases right with
    | false =>
      simpa using (mem_gridRange hy').1
    | true =>
      simp only [if_true] at hy'
      rw [List.mem_reverse] at hy'
      have h1 := (mem_gridRange hy').1
      have h2 := (mem_gridRange hy').2
      have := gstep_pos
      norm_num at h1 h2
      linarith
  refine ⟨⟨by simpa using hxfacts, by simp; linarith⟩,
    ⟨by simpa using hyfacts, by simp; linarith⟩,
    ⟨by simpa using hz0, by simp; linarith⟩, ?_⟩
  intro p hp
  have := overlapsAny_eq_false hov p hp
  simpa using this

/-- Every position `find_balanced_position` returns keeps the box inside the
container and non-overlapping with all packed boxes. -/
theorem find_balanced_position_eq_some {packed : List Placed} {item : Item}
    {maxL maxW maxH flw frw rlw rrw : ℚ} {pos : Position}
    (h : find_balanced_position packed item maxL maxW maxH flw frw rlw rrw =
      some pos) :
    (0 ≤ pos.x - item.length / 2 ∧ pos.x + item.length / 2 ≤ maxL) ∧
    (0 ≤ pos.y - item.width / 2 ∧ pos.y + item.width / 2 ≤ maxW) ∧
    (0 ≤ pos.z - item.height / 2 ∧ pos.z + item.height / 2 ≤ maxH) ∧
    ∀ p ∈ packed,
      boxes_overlap (pos.x - item.length / 2) (pos.y - item.width / 2)
        (pos.z - item.height / 2) item.length item.width item.height
        p.ox p.oy p.oz p.item.length p.item.width p.item.height = false := by
  simp only [find_balanced_position] at h
  obtain ⟨q, _, hq⟩ := List.exists_of_findSome?_eq_some h
  exact tryQuadrant_eq_some hq

/-! ## State-machine lemmas -/

theorem optimize_cargo_eq (so : List String → List String) (reqs : List Item)
    (cfg : Container) :
    optimize_cargo so reqs cfg =
      summarize cfg (finalState so reqs cfg)
        (unpackedOf reqs (multipass cfg reqs)) := by
  unfold optimize_cargo finalState
  split_ifs <;> rfl

theorem placeItem_packed (cfg : Container) (st : PackState) (item : Item)
    (pos : Position) :
    (placeItem cfg st item pos).packed = st.packed ++ [Placed.mk item pos] := by
  simp only [placeItem]
  split_ifs <;> rfl

theorem placeItem_weight (cfg : Container) (st : PackState) (item : Item)
    (pos : Position) :
    (placeItem cfg st item pos).current_weight =
      st.current_weight + item.weight := by
  simp only [placeItem]
  split_ifs <;> rfl

theorem placeItem_volume (cfg : Container) (st : PackState) (item : Item)
    (pos : Position) :
    (placeItem cfg st item pos).current_volume =
      st.current_volume + item.length * item.width * item.height := by
  simp only [placeItem]
  split_ifs <;> rfl

theorem placeItem_set (cfg : Container) (st : PackState) (item : Item)
    (pos : Position) :
    (placeItem cfg st item pos).packed_items_set = st.packed_items_set := by
  simp only [placeItem]
  split_ifs <;> rfl

theorem placeItem_quadsum (cfg : Container) (st : PackState) (item : Item)
    (pos : Position) :
    (placeItem cfg st item pos).front_left_weight +
      (placeItem cfg st item pos).front_right_weight +
      (placeItem cfg st item pos).rear_left_weight +
      (placeItem cfg st item pos).rear_right_weight =
      st.front_left_weight + st.front_right_weight + st.rear_left_weight +
        st.rear_right_weight + item.weight := by
  simp only [placeItem]
  split_ifs <;> (simp only []; ring)

theorem attemptPack_eq_some {cfg : Container} {st : PackState} {item : Item}
    {st' : PackState} (h : attemptPack cfg st item = some st') :
    ∃ pos,
      find_balanced_position st.packed item cfg.max_length cfg.max_width
        cfg.max_height st.front_left_weight st.front_right_weight
        st.rear_left_weight st.rear_right_weight = some pos ∧
      st.current_weight + item.weight ≤ cfg.max_weight ∧
      st.current_volume + item.length * item.width * item.height ≤
        cfg.max_volume ∧
      st' = placeItem cfg st item pos := by
  simp only [attemptPack] at h
  split_ifs at h with hc
  cases hfind : find_balanced_position st.packed item cfg.max_length
      cfg.max_width cfg.max_height st.front_left_weight st.front_right_weight
      st.rear_left_weight st.rear_right_weight with
  | none => rw [hfind] at h; exact absurd h (by simp)
  | some pos =>
    rw [hfind] at h
    exact ⟨pos, rfl, hc.1, hc.2.1, (Option.some.inj h).symm⟩

theorem sumWeight_append_single (l : List Placed) (p : Placed) :
    sumWeight (l ++ [p]) = sumWeight l + p.item.weight := by
  simp [sumWeight]

theorem sumVolume_append_single (l : List Placed) (p : Placed) :
    sumVolume (l ++ [p]) =
      sumVolume l + p.item.length * p.item.width * p.item.height := by
  simp [sumVolume]

theorem attemptPack_inv {cfg : Container} {st st' : PackState} {item : Item}
    (hinv : Inv cfg st) (h : attemptPack cfg st item = some st') :
    Inv cfg st' := by
  obtain ⟨pos, hfind, hw, hv, rfl⟩ := attemptPack_eq_some h
  obtain ⟨hbx, hby, hbz, hov⟩ := find_balanced_position_eq_some hfind
  constructor
  · rw [placeItem_packed, List.pairwise_append]
    refine ⟨hinv.pairwise, List.pairwise_singleton _ _, ?_⟩
    intro a ha b hb
    rw [List.mem_singleton] at hb
    subst hb
    exact hov a ha
  · rw [placeItem_packed]
    intro p hp
    rcases List.mem_append.mp hp with hp' | hp'
    · exact hinv.bounds p hp'
    · rw [List.mem_singleton] at hp'
      subst hp'
      exact ⟨hbx.1, hbx.2, hby.1, hby.2, hbz.1, hbz.2⟩
  · rw [placeItem_weight, placeItem_packed, sumWeight_append_single,
      hinv.weight_eq]
  · rw [placeItem_volume, placeItem_packed, sumVolume_append_single,
      hinv.volume_eq]
  · rw [placeItem_quadsum, placeItem_weight, hinv.quad_eq]
  · rw [placeItem_weight]
    right
    exact hw
  · rw [placeItem_volume]
    right
    exact hv

theorem admitStep_inv {cfg : Container} {minP : ℕ} {st : PackState}
    {e : ℕ × Item} (hinv : Inv cfg st) : Inv cfg (admitStep cfg minP st e) := by
  simp only [admitStep]
  split_ifs with h1 h2 h3 h4
  · exact hinv
  · exact hinv
  · exact ⟨hinv.1, hinv.2, hinv.3, hinv.4, hinv.5, hinv.6, hinv.7⟩
  · cases hap : attemptPack cfg { st with in_optimal_range := true } e.2 with
    | none =>
      exact ⟨hinv.1, hinv.2, hinv.3, hinv.4, hinv.5, hinv.6, hinv.7⟩
    | some st'' =>
      have h' := attemptPack_inv
        (⟨hinv.1, hinv.2, hinv.3, hinv.4, hinv.5, hinv.6, hinv.7⟩ :
          Inv cfg { st with in_optimal_range := true }) hap
      exact ⟨h'.1, h'.2, h'.3, h'.4, h'.5, h'.6, h'.7⟩
  · cases hap : attemptPack cfg st e.2 with
    | none => exact hinv
    | some st'' =>
      have h' := attemptPack_inv hinv hap
      exact ⟨h'.1, h'.2, h'.3, h'.4, h'.5, h'.6, h'.7⟩

theorem memN_eq_true_iff {n : ℕ} {l : List ℕ} : memN n l = true ↔ n ∈ l := by
  simp [memN, List.any_eq_true]

theorem memN_cons (n x : ℕ) (l : List ℕ) :
    memN n (x :: l) = (decide (x = n) || memN n l) := by
  simp [memN]

theorem filter_cons_set_perm {items : List (ℕ × Item)} {idx : ℕ} {it : Item}
    {s : List ℕ} (hnd : (items.map Prod.fst).Nodup)
    (hmem : (idx, it) ∈ items) (hns : memN idx s = false) :
    List.Perm (items.filter fun e => memN e.1 (idx :: s))
      ((idx, it) :: items.filter fun e => memN e.1 s) := by
  induction items with
  | nil => cases hmem
  | cons a items ih =>
    rw [List.map_cons, List.nodup_cons] at hnd
    rcases List.mem_cons.mp hmem with heq | hmem'
    · subst heq
      rw [List.filter_cons, List.filter_cons]
      have h1 : memN idx (idx :: s) = true := by
        rw [memN_cons]; simp
      rw [h1, if_pos rfl, hns]
      simp only [Bool.false_eq_true, if_false]
      have hrest : (items.filter fun e => memN e.1 (idx :: s)) =
          items.filter fun e => memN e.1 s := by
        apply List.filter_congr
        intro e he
        rw [memN_cons]
        have : e.1 ≠ idx := by
          intro hc
          have hmm := List.mem_map_of_mem Prod.fst he
          rw [hc] at hmm
          exact hnd.1 hmm
        simp [Ne.symm this]
      rw [hrest]
    · have hane : a.1 ≠ idx := by
        intro hc
        apply hnd.1
        rw [hc]
        exact List.mem_map_of_mem Prod.fst hmem'
      have hha : memN a.1 (idx :: s) = memN a.1 s := by
        rw [memN_cons]
        simp [Ne.symm hane]
      rw [List.filter_cons, List.filter_cons, hha]
      by_cases hms : memN a.1 s = true
      · rw [hms]
        simp only [if_pos rfl]
        exact ((ih hnd.2 hmem').cons a).trans (List.Perm.swap _ _ _)
      · rw [Bool.not_eq_true] at hms
        rw [hms]
        simp only [Bool.false_eq_true, if_false]
        exact ih hnd.2 hmem'

theorem pack_branch_conserves {cfg : Container} {items : List (ℕ × Item)}
    {s0 : PackState} {e : ℕ × Item} {pos : Position}
    (hnd : (items.map Prod.fst).Nodup) (he : e ∈ items)
    (hns : memN e.1 s0.packed_items_set = false) (hc : Conserves items s0) :
    Conserves items
      { placeItem cfg s0 e.2 pos with
        packed_items_set := e.1 :: (placeItem cfg s0 e.2 pos).packed_items_set } := by
  unfold Conserves
  rw [placeItem_set, placeItem_packed]
  have hstep := @filter_cons_set_perm items e.1 e.2 s0.packed_items_set hnd
    (by simpa using he) hns
  refine List.Perm.trans ?_ (hstep.map (·.2)).symm
  simp only [List.map_cons, List.map_append]
  refine (List.perm_append_singleton _ _).trans ?_
  exact (hc.cons e.2)

theorem admitStep_conserves {cfg : Container} {minP : ℕ}
    {items : List (ℕ × Item)} {st : PackState} {e : ℕ × Item}
    (hnd : (items.map Prod.fst).Nodup) (he : e ∈ items)
    (hc : Conserves items st) : Conserves items (admitStep cfg minP st e) := by
  simp only [admitStep]
  split_ifs with h1 h2 h3 h4
  · exact hc
  · exact hc
  · exact hc
  · cases hap : attemptPack cfg { st with in_optimal_range := true } e.2 with
    | none => exact hc
    | some st'' =>
      obtain ⟨pos, hfind, hw, hv, rfl⟩ := attemptPack_eq_some hap
      exact pack_branch_conserves hnd he
        (Bool.not_eq_true _ |>.mp h1) hc
  · cases hap : attemptPack cfg st e.2 with
    | none => exact hc
    | some st'' =>
      obtain ⟨pos, hfind, hw, hv, rfl⟩ := attemptPack_eq_some hap
      exact pack_branch_conserves hnd he
        (Bool.not_eq_true _ |>.mp h1) hc

theorem foldl_preserve {α β : Type} {P : β → Prop} {f : β → α → β}
    {l : List α} (hstep : ∀ b a, a ∈ l → P b → P (f b a)) :
    ∀ b, P b → P (l.foldl f b) := by
  induction l with
  | nil => intro b hb; exact hb
  | cons x xs ih =>
    intro b hb
    exact ih (fun b a ha => hstep b a (List.mem_cons_of_mem _ ha)) _
      (hstep b x (List.mem_cons_self _ _) hb)

theorem passLoop_preserve {P : PackState → Prop} {cfg : Container}
    {items : List (ℕ × Item)}
    (hstep : ∀ minP st e, e ∈ items → P st → P (admitStep cfg minP st e)) :
    ∀ ps st, P st → P (passLoop cfg items ps st) := by
  intro ps
  induction ps with
  | nil => intro st h; exact h
  | cons p rest ih =>
    intro st h
    simp only [passLoop]
    have h' : P (items.foldl (admitStep cfg (10 - p)) st) :=
      foldl_preserve (fun b a ha => hstep (10 - p) b a ha) st h
    split_ifs
    · exact h'
    · exact ih _ h'

theorem inv_initState (cfg : Container) : Inv cfg initState := by
  constructor
  · exact List.Pairwise.nil
  · intro p hp; cases hp
  · rfl
  · rfl
  · norm_num [initState]
  · left; rfl
  · left; rfl

theorem multipass_inv (cfg : Container) (reqs : List Item) :
    Inv cfg (multipass cfg reqs) := by
  unfold multipass
  exact passLoop_preserve (fun minP st e _ h => admitStep_inv h) _ _
    (inv_initState cfg)

theorem items_by_priority_nodup_fst (reqs : List Item) :
    ((items_by_priority reqs).map Prod.fst).Nodup := by
  unfold items_by_priority
  rw [List.enum_map_fst]
  exact List.nodup_range _

theorem conserves_initState (items : List (ℕ × Item)) :
    Conserves items initState := by
  unfold Conserves
  have : (items.filter fun e => memN e.1 initState.packed_items_set) = [] := by
    apply List.filter_eq_nil_iff.mpr
    intro e he
    simp [initState, memN]
  rw [this]
  exact List.Perm.refl _

theorem multipass_conserves (cfg : Container) (reqs : List Item) :
    Conserves (items_by_priority reqs) (multipass cfg reqs) := by
  unfold multipass
  exact passLoop_preserve
    (fun minP st e he h =>
      admitStep_conserves (items_by_priority_nodup_fst reqs) he h) _ _
    (conserves_initState _)

/-! ## Top-off preservation -/

theorem topoffTier_preserve {so : List String → List String} {cfg : Container}
    {reqs : List Item} {attempts : ℕ} {base : List Placed}
    {acc : PackState × Bool × Bool} {p : ℕ} (hatt : 1 ≤ attempts)
    (hinv : Inv cfg acc.1) (hext : TopExt base acc.1) :
    Inv cfg (topoffTier so cfg reqs attempts acc p).1 ∧
      TopExt base (topoffTier so cfg reqs attempts acc p).1 := by
  rcases acc with ⟨st, added, broke⟩
  simp only [topoffTier]
  split_ifs with h1 h2 h3
  · exact ⟨hinv, hext⟩
  · exact ⟨hinv, hext⟩
  · exact ⟨hinv, hext⟩
  · split
    · exact ⟨hinv, hext⟩
    · next t hg =>
      split
      · exact ⟨hinv, hext⟩
      · next spec hps =>
        split
        · next st' hap =>
          refine ⟨attemptPack_inv hinv hap, ?_⟩
          obtain ⟨pos, hfind, hw, hv, rfl⟩ := attemptPack_eq_some hap
          obtain ⟨extra, hpk, hid⟩ := hext
          refine ⟨extra ++ [Placed.mk (mkTopoffItem attempts p t spec) pos], ?_, ?_⟩
          · rw [placeItem_packed, hpk, List.append_assoc]
          · intro q hq
            rcases List.mem_append.mp hq with hq' | hq'
            · exact hid q hq'
            · rw [List.mem_singleton] at hq'
              subst hq'
              simp only [mkTopoffItem]
              omega
        · exact ⟨hinv, hext⟩

theorem topoffPass_preserve {so : List String → List String} {cfg : Container}
    {reqs : List Item} {hps : List ℕ} {attempts : ℕ} {base : List Placed}
    {st : PackState} (hatt : 1 ≤ attempts) (hinv : Inv cfg st)
    (hext : TopExt base st) :
    Inv cfg (topoffPass so cfg reqs hps attempts st).1 ∧
      TopExt base (topoffPass so cfg reqs hps attempts st).1 := by
  unfold topoffPass
  have := @foldl_preserve ℕ (PackState × Bool × Bool)
    (fun acc => Inv cfg acc.1 ∧ TopExt base acc.1)
    (topoffTier so cfg reqs attempts) hps
    (fun b a _ hb => topoffTier_preserve hatt hb.1 hb.2)
    (st, false, false) ⟨hinv, hext⟩
  exact this

theorem TopExt.refl (l : List Placed) (st : PackState) (h : st.packed = l) :
    TopExt l st := ⟨[], by rw [h, List.append_nil], by intro p hp; cases hp⟩

theorem TopExt.trans {l : List Placed} {st st' : PackState}
    (h1 : TopExt l st) (h2 : TopExt st.packed st') : TopExt l st' := by
  obtain ⟨e1, hp1, hid1⟩ := h1
  obtain ⟨e2, hp2, hid2⟩ := h2
  refine ⟨e1 ++ e2, by rw [hp2, hp1, List.append_assoc], ?_⟩
  intro p hp
  rcases List.mem_append.mp hp with h | h
  · exact hid1 p h
  · exact hid2 p h

theorem topoffLoop_preserve {so : List String → List String} {cfg : Container}
    {reqs : List Item} {hps : List ℕ} {base : List Placed} :
    ∀ (fuel attempts : ℕ) (st : PackState), Inv cfg st → TopExt base st →
      Inv cfg (topoffLoop so cfg reqs hps fuel attempts st) ∧
        TopExt base (topoffLoop so cfg reqs hps fuel attempts st) := by
  intro fuel
  induction fuel with
  | zero => intro attempts st hinv hext; exact ⟨hinv, hext⟩
  | succ fuel ih =>
    intro attempts st hinv hext
    simp only [topoffLoop]
    by_cases h1 : st.current_weight < cfg.optimal_min
    · have hpass := @topoffPass_preserve so cfg reqs hps (attempts + 1) base st
        (by omega) hinv hext
      rw [if_pos h1]
      split_ifs with h2
      · exact ih _ _ hpass.1 hpass.2
      · exact hpass
    · rw [if_neg h1]
      exact ⟨hinv, hext⟩

theorem topoff_preserve {so : List String → List String} {cfg : Container}
    {reqs : List Item} {st : PackState} (hinv : Inv cfg st) :
    Inv cfg (topoff so cfg reqs st) ∧ TopExt st.packed (topoff so cfg reqs st) := by
  simp only [topoff]
  split_ifs
  · exact ⟨hinv, TopExt.refl _ _ rfl⟩
  · exact topoffLoop_preserve 1000 0 st hinv (TopExt.refl _ _ rfl)

theorem finalState_inv (so : List String → List String) (reqs : List Item)
    (cfg : Container) : Inv cfg (finalState so reqs cfg) := by
  unfold finalState
  split_ifs
  · exact (topoff_preserve (multipass_inv cfg reqs)).1
  · exact multipass_inv cfg reqs

theorem finalState_ext (so : List String → List String) (reqs : List Item)
    (cfg : Container) :
    TopExt (multipass cfg reqs).packed (finalState so reqs cfg) := by
  unfold finalState
  split_ifs
  · exact (topoff_preserve (multipass_inv cfg reqs)).2
  · exact TopExt.refl _ _ rfl

/-! ## Permutation facts about sorting and grouping -/

theorem stableInsert_perm (lt : α → α → Bool) (x : α) (l : List α) :
    List.Perm (stableInsert lt x l) (x :: l) := by
  induction l with
  | nil => exact List.Perm.refl _
  | cons y ys ih =>
    unfold stableInsert
    split_ifs
    · exact List.Perm.refl _
    · exact (ih.cons y).trans (List.Perm.swap _ _ _)

theorem pySorted_perm (lt : α → α → Bool) (l : List α) :
    List.Perm (pySorted lt l) l := by
  suffices h : ∀ acc, List.Perm
      (l.foldl (fun acc x => stableInsert lt x acc) acc) (l ++ acc) by
    simpa using h []
  induction l with
  | nil => intro acc; simp
  | cons x xs ih =>
    intro acc
    simp only [List.foldl_cons]
    refine (ih (stableInsert lt x acc)).trans ?_
    refine (List.Perm.append_left xs (stableInsert_perm lt x acc)).trans ?_
    exact List.perm_middle

theorem length_filter_eq_one {ks : List ℕ} {m : ℕ} (hnd : ks.Nodup)
    (hm : m ∈ ks) : (ks.filter fun k => decide (m = k)).length = 1 := by
  induction ks with
  | nil => cases hm
  | cons k ks ih =>
    rw [List.nodup_cons] at hnd
    rw [List.filter_cons]
    rcases List.mem_cons.mp hm with rfl | hm'
    · rw [if_pos (by simp)]
      have : (ks.filter fun k => decide (m = k)) = [] := by
        apply List.filter_eq_nil_iff.mpr
        intro a ha
        simp only [decide_eq_true_eq]
        intro hc
        exact hnd.1 (hc ▸ ha)
      rw [this]
      rfl
    · have hne : m ≠ k := by
        intro hc
        exact hnd.1 (hc ▸ hm')
      rw [if_neg (by simp [hne])]
      exact ih hnd.2 hm'

theorem count_flatMap_filter (key : α → ℕ) (l : List α) [DecidableEq α]
    (a : α) : ∀ ks : List ℕ,
    ((ks.flatMap fun k => l.filter fun x => decide (key x = k)).count a)
      = (ks.filter fun k => decide (key a = k)).length * l.count a := by
  intro ks
  induction ks with
  | nil => simp
  | cons k ks ih =>
    rw [List.flatMap_cons, List.count_append, ih, List.filter_cons]
    by_cases h : key a = k
    · have hcnt : (l.filter fun x => decide (key x = k)).count a = l.count a :=
        List.count_filter (by simp [h])
      rw [hcnt, if_pos (by simp [h])]
      simp only [List.length_cons]
      ring
    · have hcnt : (l.filter fun x => decide (key x = k)).count a = 0 := by
        apply List.count_eq_zero.mpr
        intro hc
        have := List.mem_filter.mp hc
        simp only [decide_eq_true_eq] at this
        exact h this.2
      rw [hcnt, if_neg (by simp [h])]
      omega

theorem flatMap_groups_perm {key : α → ℕ} [DecidableEq α] {ks : List ℕ}
    {l : List α} (hnd : ks.Nodup) (hcov : ∀ x ∈ l, key x ∈ ks) :
    List.Perm (ks.flatMap fun k => l.filter fun x => decide (key x = k)) l := by
  rw [List.perm_iff_count]
  intro a
  rw [count_flatMap_filter]
  by_cases hal : a ∈ l
  · rw [length_filter_eq_one hnd (hcov a hal), one_mul]
  · rw [List.count_eq_zero.mpr hal, Nat.mul_zero]

theorem sortDesc_keys_nodup (reqs : List Item) :
    (sortDesc (priorityKeys reqs)).Nodup :=
  ((pySorted_perm _ _).nodup_iff).mpr (List.nodup_dedup _)

theorem mem_sortDesc_keys {reqs : List Item} {x : Item}
    (hx : x ∈ sorted_requests reqs) :
    x.priority ∈ sortDesc (priorityKeys reqs) := by
  unfold sortDesc
  rw [(pySorted_perm _ _).mem_iff]
  unfold priorityKeys
  rw [List.mem_dedup]
  exact List.mem_map_of_mem (·.priority) hx

/-- List `items_by_priority` is (as a multiset of items) exactly the request
snapshot. -/
theorem items_by_priority_map_snd_perm (reqs : List Item) :
    List.Perm ((items_by_priority reqs).map (·.2)) reqs := by
  unfold items_by_priority
  rw [List.enum_map_snd]
  refine List.Perm.trans ?_ (pySorted_perm requestLt reqs)
  unfold priorityGroup
  exact flatMap_groups_perm (sortDesc_keys_nodup reqs)
    (fun x hx => mem_sortDesc_keys hx)

theorem has_high_priority_iff (reqs : List Item) :
    has_high_priority reqs = true ↔ ∃ r ∈ reqs, 8 ≤ r.priority := by
  unfold has_high_priority priorityKeys
  rw [List.any_eq_true]
  constructor
  · rintro ⟨p, hp, hp8⟩
    rw [List.mem_dedup] at hp
    obtain ⟨r, hr, rfl⟩ := List.mem_map.mp hp
    exact ⟨r, (pySorted_perm _ _).mem_iff.mp hr, by simpa using hp8⟩
  · rintro ⟨r, hr, hr8⟩
    refine ⟨r.priority, ?_, by simpa using hr8⟩
    rw [List.mem_dedup]
    exact List.mem_map_of_mem (·.priority)
      ((pySorted_perm _ _).mem_iff.mpr hr)

/-! ## Rounding and summarizer facts -/

theorem pyRoundHE_abs_le (q : ℚ) : |(pyRoundHE q : ℚ) - q| ≤ 1/2 := by
  simp only [pyRoundHE]
  have h1 : (⌊q⌋ : ℚ) ≤ q := Int.floor_le q
  have h2 : q - 1 < (⌊q⌋ : ℚ) := by
    have := Int.sub_one_lt_floor q
    push_cast at this ⊢
    linarith
  split_ifs with hr1 hr2 hf <;> rw [abs_le] <;> constructor <;> push_cast <;>
    linarith

theorem pyRound1_abs_le (q : ℚ) : |pyRound q 1 - q| ≤ 1/20 := by
  unfold pyRound
  have h := pyRoundHE_abs_le (q * 10 ^ 1)
  rw [abs_le] at h ⊢
  norm_num at h ⊢
  constructor <;> linarith

theorem summarize_packed (cfg : Container) (st : PackState)
    (unp : List Item) : (summarize cfg st unp).packed = st.packed := rfl

theorem summarize_unpacked (cfg : Container) (st : PackState)
    (unp : List Item) : (summarize cfg st unp).unpacked = unp := rfl

theorem summarize_total_weight (cfg : Container) (st : PackState)
    (unp : List Item) :
    (summarize cfg st unp).stats.total_weight = st.current_weight := rfl

theorem summarize_total_volume (cfg : Container) (st : PackState)
    (unp : List Item) :
    (summarize cfg st unp).stats.total_volume = st.current_volume := rfl

theorem summarize_left_weight (cfg : Container) (st : PackState)
    (unp : List Item) :
    (summarize cfg st unp).stats.left_weight =
      pyRound (if st.packed.isEmpty then 0 else
        st.front_left_weight + st.rear_left_weight) 1 := rfl

theorem summarize_right_weight (cfg : Container) (st : PackState)
    (unp : List Item) :
    (summarize cfg st unp).stats.right_weight =
      pyRound (if st.packed.isEmpty then 0 else
        st.front_right_weight + st.rear_right_weight) 1 := rfl

theorem optimize_packed (reqs : List Item) (cfg : Container) :
    (optimize reqs cfg).packed = (finalState List.dedup reqs cfg).packed := by
  unfold optimize
  rw [optimize_cargo_eq, summarize_packed]

theorem optimize_unpacked (reqs : List Item) (cfg : Container) :
    (optimize reqs cfg).unpacked = unpackedOf reqs (multipass cfg reqs) := by
  unfold optimize
  rw [optimize_cargo_eq, summarize_unpacked]

/-- Bridge from the source's overlap test to geometric disjointness: when
`boxes_overlap` answers `false`, the two boxes share no interior point. -/
theorem noOverlap_strict {p q : Placed} (h : noOverlap p q) :
    ∀ t : ℚ × ℚ × ℚ, ¬(strictInside t p ∧ strictInside t q) := by
  rintro t ⟨hp, hq⟩
  unfold noOverlap at h
  rw [boxes_overlap_eq_false_iff] at h
  simp only [Placed.ox, Placed.oy, Placed.oz] at h
  obtain ⟨a1, a2, a3, a4, a5, a6⟩ := hp
  obtain ⟨b1, b2, b3, b4, b5, b6⟩ := hq
  rcases h with h | h | h | h | h | h <;> linarith

/-! ## Claim theorems -/

/-- C1: for every LoadPlan returned by `optimize`, no two distinct packed
items' bounding boxes (centered at their positions with their extents) have a
common interior point; boxes sharing only a face or edge are allowed. -/
theorem c1_no_overlap (reqs : List Item) (cfg : Container) :
    (optimize reqs cfg).packed.Pairwise
      (fun p q => ∀ t : ℚ × ℚ × ℚ, ¬(strictInside t p ∧ strictInside t q)) := by
  rw [optimize_packed]
  exact (finalState_inv List.dedup reqs cfg).pairwise.imp
    (fun h => noOverlap_strict h)

/-- C1 witness: the property instantiated at a concrete run that packs three
items. -/
theorem c1_witness :
    (optimize reqC cB).packed.Pairwise
      (fun p q => ∀ t : ℚ × ℚ × ℚ, ¬(strictInside t p ∧ strictInside t q)) :=
  c1_no_overlap reqC cB

/-- C2 counterexample: on the degenerate container with `max_weight = -1`
(spec §7 allows zero or negative capacities) and an empty request list, the
returned plan packs nothing, yet the packed weight sum `0` exceeds
`max_weight = -1`, so the claimed inequality fails as stated. -/
theorem c2_counterexample :
    ¬ sumWeight (optimize [] cNeg).packed ≤ cNeg.max_weight := by
  with_unfolding_all decide

/-- C2 (amended: the container capacities must be nonnegative, which the
degenerate container of the counterexample violates): for every LoadPlan
returned by `optimize` on a container with `0 ≤ max_weight` and
`0 ≤ max_volume`, the packed weight sum is at most `max_weight` and the
packed volume sum is at most `max_length * max_width * max_height`. -/
theorem c2_capacity (reqs : List Item) (cfg : Container)
    (hw : 0 ≤ cfg.max_weight) (hv : 0 ≤ cfg.max_volume) :
    sumWeight (optimize reqs cfg).packed ≤ cfg.max_weight ∧
      sumVolume (optimize reqs cfg).packed ≤ cfg.max_volume := by
  rw [optimize_packed]
  have hinv := finalState_inv List.dedup reqs cfg
  constructor
  · rw [← hinv.weight_eq]
    rcases hinv.weight_cap with h | h
    · rw [h]; exact hw
    · exact h
  · rw [← hinv.volume_eq]
    rcases hinv.volume_cap with h | h
    · rw [h]; exact hv
    · exact h

/-- C2 witness: the amended capacity bound at the UH-60 container. -/
theorem c2_witness :
    sumWeight (optimize reqA cA).packed ≤ cA.max_weight ∧
      sumVolume (optimize reqA cA).packed ≤ cA.max_volume :=
  c2_capacity reqA cA (by norm_num [cA]) (by norm_num [cA, Container.max_volume])

/-- C3: every packed item's bounding box lies inside
`[0, max_length] × [0, max_width] × [0, max_height]`. -/
theorem c3_containment (reqs : List Item) (cfg : Container) :
    ∀ p ∈ (optimize reqs cfg).packed, inContainer cfg p := by
  rw [optimize_packed]
  exact (finalState_inv List.dedup reqs cfg).bounds

/-- C3 witness: the single water case packed in the UH-60 bay sits at
`(0.225, 0.15, 0.125)`, inside the container. -/
theorem c3_witness :
    inContainer cA
      (Placed.mk ⟨1, "Water Case (24 bottles)", 7, 18, 45/100, 30/100, 25/100⟩
        ⟨9/40, 3/20, 1/8⟩) :=
  c3_containment reqA cA _ (by with_unfolding_all decide)

/-- C4: excluding synthetic backfill items (ids `10000 + attempts`, hence the
hypothesis that original request ids stay below 10000, as the monotonic
request counter of the source does), the packed items together with the
unpacked list are exactly the input request snapshot, each request once. -/
theorem c4_conservation (reqs : List Item) (cfg : Container)
    (hid : ∀ r ∈ reqs, r.id < 10000) :
    List.Perm
      ((((optimize reqs cfg).packed.filter
          fun p => decide (p.item.id < 10000)).map (·.item)) ++
        (optimize reqs cfg).unpacked) reqs := by
  rw [optimize_packed, optimize_unpacked]
  obtain ⟨extra, hpk, hxid⟩ := finalState_ext List.dedup reqs cfg
  rw [hpk, List.filter_append]
  have hcons := multipass_conserves cfg reqs
  unfold Conserves at hcons
  have hmp : ∀ p ∈ (multipass cfg reqs).packed, p.item ∈ reqs := by
    intro p hp
    have h1 : p.item ∈ (multipass cfg reqs).packed.map (·.item) :=
      List.mem_map_of_mem _ hp
    have h2 := hcons.mem_iff.mp h1
    obtain ⟨e, he, heq⟩ := List.mem_map.mp h2
    have he' : e ∈ items_by_priority reqs := (List.filter_sublist _).mem he
    have h3 : e.2 ∈ (items_by_priority reqs).map (·.2) :=
      List.mem_map_of_mem _ he'
    rw [heq] at h3
    exact (items_by_priority_map_snd_perm reqs).mem_iff.mp h3
  have hfilter1 : (multipass cfg reqs).packed.filter
      (fun p => decide (p.item.id < 10000)) = (multipass cfg reqs).packed := by
    apply List.filter_eq_self.mpr
    intro p hp
    simp only [decide_eq_true_eq]
    exact hid p.item (hmp p hp)
  have hfilter2 : extra.filter (fun p => decide (p.item.id < 10000)) = [] := by
    apply List.filter_eq_nil_iff.mpr
    intro p hp
    simp only [decide_eq_true_eq]
    have := hxid p hp
    omega
  rw [hfilter1, hfilter2, List.append_nil]
  refine List.Perm.trans (hcons.append_right _) ?_
  unfold unpackedOf
  rw [← List.map_append]
  refine List.Perm.trans
    ((List.filter_append_perm
      (fun e => memN e.1 (multipass cfg reqs).packed_items_set)
      (items_by_priority reqs)).map (·.2)) ?_
  exact items_by_priority_map_snd_perm reqs

/-- C4 witness: conservation at a concrete three-request run. -/
theorem c4_witness :
    List.Perm
      ((((optimize reqC cB).packed.filter
          fun p => decide (p.item.id < 10000)).map (·.item)) ++
        (optimize reqC cB).unpacked) reqC :=
  c4_conservation reqC cB (by with_unfolding_all decide)

/-- C5 counterexample: in the run of `optimize` on `reqC` (weights 80, 10, 5
at priorities 10, 8, 7) with `cB` (`max_weight = 100`), the packed order is
the admission order.  After the first item the accumulated weight 80 lies in
the band `[75, 85]`; the priority-8 item then lifts it to 90, above
`0.85 * 100 = 85`.  The claim says the priority-7 item (which would take the
weight from 90 to 95, above the band ceiling) must then be rejected — but the
code admits it, because the guard is only consulted while the current weight
still lies inside the band. -/
theorem c5_counterexample :
    ((optimize reqC cB).packed.map fun p =>
      (p.item.id, p.item.priority, p.item.weight)) =
      [(1, 10, (80:ℚ)), (2, 8, 10), (3, 7, 5)] ∧
    cB.optimal_min ≤ 80 ∧ (80:ℚ) ≤ cB.optimal_max ∧
    cB.optimal_max < 80 + 10 ∧ cB.optimal_max < 90 + 5 := by
  refine ⟨by with_unfolding_all decide, ?_, ?_, ?_, ?_⟩ <;>
    norm_num [cB, Container.optimal_min, Container.optimal_max]

/-- C5 (amended: the optimal-band guard applies exactly while the accumulated
weight currently lies in `[0.75, 0.85] * max_weight`; once the weight has
passed above the band the guard no longer applies): for a candidate that is
unpacked and meets the pass's priority floor, (a) if the weight lies in the
band, admitting would push it above `0.85 * max_weight`, and the priority is
below 8, the candidate is skipped (only the in-band flag is set); (b) if the
weight is already above `0.85 * max_weight`, the candidate proceeds to the
capacity and placement checks regardless of priority, and is packed whenever
they succeed. -/
theorem c5_band_guard (cfg : Container) (minP : ℕ) (st : PackState)
    (e : ℕ × Item) (hmem : memN e.1 st.packed_items_set = false)
    (hpri : ¬ e.2.priority < minP) :
    ((cfg.optimal_min ≤ st.current_weight →
      st.current_weight ≤ cfg.optimal_max →
      cfg.optimal_max < st.current_weight + e.2.weight →
      e.2.priority < 8 →
      admitStep cfg minP st e = { st with in_optimal_range := true }) ∧
     (cfg.optimal_max < st.current_weight →
      ∀ st'', attemptPack cfg st e.2 = some st'' →
      admitStep cfg minP st e =
        { st'' with packed_items_set := e.1 :: st''.packed_items_set })) := by
  constructor
  · intro h1 h2 h3 h4
    simp only [admitStep]
    rw [if_neg (by simp [hmem]), if_neg hpri, if_pos ⟨h1, h2⟩,
      if_pos ⟨h3, h4⟩]
  · intro hover st'' hap
    simp only [admitStep]
    rw [if_neg (by simp [hmem]), if_neg hpri,
      if_neg (fun hc => absurd hc.2 (not_le.mpr hover)), hap]

/-- C5 witness: at weight 80 (inside the band of `cB`) the priority-7
candidate `itY` of weight 10 is skipped; at weight 90 (above the band) the
priority-7 candidate `itZ` of weight 5 is packed. -/
theorem c5_witness :
    admitStep cB 7 stW (1, itY) = { stW with in_optimal_range := true } ∧
    admitStep cB 7 stV (2, itZ) =
      { stVPacked with packed_items_set := 2 :: stVPacked.packed_items_set } := by
  constructor
  · exact (c5_band_guard cB 7 stW (1, itY) (by with_unfolding_all decide)
      (by norm_num [itY]))|>.1
      (by norm_num [stW, cB, Container.optimal_min])
      (by norm_num [stW, cB, Container.optimal_max])
      (by norm_num [stW, itY, cB, Container.optimal_max])
      (by norm_num [itY])
  · exact (c5_band_guard cB 7 stV (2, itZ) (by with_unfolding_all decide)
      (by norm_num [itZ]))|>.2
      (by norm_num [stV, cB, Container.optimal_max])
      stVPacked (by with_unfolding_all decide)

/-- C6 counterexample: the top-off backfill enumerates the distinct item
types of a tier by `list(set(...))`, whose order Python does not determine
from the inputs (string hashing is randomized across processes).  Two
faithful enumeration orders of the same two-element type set — first-seen
order and its reverse — yield different packed lists on `reqB`/`cB`: the
rotation `attempts % len(unique_types)` synthesizes different items.  Hence
the plan is not a function of the stated inputs alone. -/
theorem c6_counterexample :
    ((optimize_cargo List.dedup reqB cB).packed.map fun p => p.item.weight) ≠
      ((optimize_cargo (fun l => l.dedup.reverse) reqB cB).packed.map
        fun p => p.item.weight) := by
  with_unfolding_all decide

/-- C6 (amended: determinism holds once the item-type enumeration order of
the top-off backfill — Python's set iteration order, an input the spec does
not list — is fixed): with the same enumeration order, identical request
snapshots and container specs give identical LoadPlans. -/
theorem c6_determinism (so : List String → List String) (r1 r2 : List Item)
    (k1 k2 : Container) (hr : r1 = r2) (hk : k1 = k2) :
    optimize_cargo so r1 k1 = optimize_cargo so r2 k2 := by
  subst hr
  subst hk
  rfl

/-- C6 witness: the amended determinism at a concrete input. -/
theorem c6_witness :
    optimize_cargo List.dedup reqA cA = optimize_cargo List.dedup reqA cA :=
  c6_determinism List.dedup reqA reqA cA cA rfl rfl

/-- C7: the fuel efficiency rating as a function of
`capacity_utilization = cargo_weight / 1200 * 100` (UH-60 preset):
`[75, 85] → "Optimal"`, `(85, ∞) → "Good"`, `[60, 75) → "Moderate"`,
`(-∞, 60) → "Low"`, with both band boundaries included in `"Optimal"`. -/
theorem c7_fuel_rating (w : ℚ) :
    ((75 ≤ w / 1200 * 100 ∧ w / 1200 * 100 ≤ 85) →
      (calculate_fuel_efficiency w).efficiency_rating = "Optimal") ∧
    (85 < w / 1200 * 100 →
      (calculate_fuel_efficiency w).efficiency_rating = "Good") ∧
    ((60 ≤ w / 1200 * 100 ∧ w / 1200 * 100 < 75) →
      (calculate_fuel_efficiency w).efficiency_rating = "Moderate") ∧
    (w / 1200 * 100 < 60 →
      (calculate_fuel_efficiency w).efficiency_rating = "Low") := by
  refine ⟨fun h => ?_, fun h => ?_, fun h => ?_, fun h => ?_⟩
  · simp only [calculate_fuel_efficiency]
    rw [if_pos h]
  · simp only [calculate_fuel_efficiency]
    rw [if_neg (fun hc => absurd h (not_lt.mpr hc.2)), if_pos h]
  · simp only [calculate_fuel_efficiency]
    rw [if_neg (fun hc => absurd hc.1 (not_le.mpr h.2)),
      if_neg (not_lt.mpr (by linarith [h.2])), if_pos h.1]
  · simp only [calculate_fuel_efficiency]
    rw [if_neg (fun hc => absurd hc.1 (not_le.mpr (by linarith))),
      if_neg (not_lt.mpr (by linarith)), if_neg (not_le.mpr h)]

/-- C7 witness: utilizations 75%, 85%, 85.08%, 60% and 25% get the claimed
ratings. -/
theorem c7_witness :
    (calculate_fuel_efficiency 900).efficiency_rating = "Optimal" ∧
    (calculate_fuel_efficiency 1020).efficiency_rating = "Optimal" ∧
    (calculate_fuel_efficiency 1021).efficiency_rating = "Good" ∧
    (calculate_fuel_efficiency 720).efficiency_rating = "Moderate" ∧
    (calculate_fuel_efficiency 300).efficiency_rating = "Low" :=
  ⟨(c7_fuel_rating 900).1 (by norm_num),
   (c7_fuel_rating 1020).1 (by norm_num),
   (c7_fuel_rating 1021).2.1 (by norm_num),
   (c7_fuel_rating 720).2.2.1 (by norm_num),
   (c7_fuel_rating 300).2.2.2 (by norm_num)⟩

/-- C8: the top-off backfill block executes iff, after the multi-pass loop,
the weight is strictly below `0.75 * max_weight` and some original request
has priority at least 8; when it does not execute, the packed list is exactly
the multi-pass packed list (in particular no synthetic items appear). -/
theorem c8_topoff_guard (reqs : List Item) (cfg : Container) :
    (topoff_runs reqs cfg = true ↔
      ((multipass cfg reqs).current_weight < cfg.optimal_min ∧
        ∃ r ∈ reqs, 8 ≤ r.priority)) ∧
    (topoff_runs reqs cfg = false →
      (optimize reqs cfg).packed = (multipass cfg reqs).packed) := by
  constructor
  · unfold topoff_runs
    rw [Bool.and_eq_true, decide_eq_true_eq, has_high_priority_iff]
  · intro h
    rw [optimize_packed]
    unfold finalState
    rw [h]
    simp

/-- C8 witness: on `reqC`/`cB` the final weight 95 is above the 75% floor, so
no top-off runs and the packed list is the multi-pass one. -/
theorem c8_witness : (optimize reqC cB).packed = (multipass cB reqC).packed :=
  (c8_topoff_guard reqC cB).2 (by with_unfolding_all decide)

/-- C9 counterexample: a 0.8 m cube in an empty 1 × 1 × 1 container.  All
quadrant weights are zero, so the search scans the front-left quadrant
(origins `x, y < 1/2`) first and accepts origin `(0, 0, 0)`, returning center
`(0.4, 0.4, 0.4)`: the box extends to 0.8, crossing the quadrant boundary
`1/2` in both length and width — only the container boundary is enforced,
contradicting the claim that origins whose extent exceeds the quadrant
boundary are rejected. -/
theorem c9_counterexample :
    find_balanced_position [] itD 1 1 1 0 0 0 0 = some ⟨2/5, 2/5, 2/5⟩ ∧
    (2/5 : ℚ) - itD.length / 2 < 1/2 ∧ (2/5 : ℚ) - itD.width / 2 < 1/2 ∧
    (1/2 : ℚ) < 2/5 + itD.length / 2 ∧ (1/2 : ℚ) < 2/5 + itD.width / 2 := by
  refine ⟨by with_unfolding_all decide, ?_, ?_, ?_, ?_⟩ <;> norm_num [itD]

/-- C9 (amended: the grid search rejects origins whose extent exceeds the
container boundary — not the quadrant boundary — in length and width, and
the container ceiling in height): every returned position keeps the box
within the container extents. -/
theorem c9_within_container (packed : List Placed) (item : Item)
    (maxL maxW maxH flw frw rlw rrw : ℚ) (pos : Position)
    (h : find_balanced_position packed item maxL maxW maxH flw frw rlw rrw =
      some pos) :
    pos.x + item.length / 2 ≤ maxL ∧ pos.y + item.width / 2 ≤ maxW ∧
      pos.z + item.height / 2 ≤ maxH := by
  obtain ⟨hx, hy, hz, _⟩ := find_balanced_position_eq_some h
  exact ⟨hx.2, hy.2, hz.2⟩

/-- C9 witness: the amended bound at the counterexample's concrete search. -/
theorem c9_witness :
    (⟨2/5, 2/5, 2/5⟩ : Position).x + itD.length / 2 ≤ 1 ∧
    (⟨2/5, 2/5, 2/5⟩ : Position).y + itD.width / 2 ≤ 1 ∧
    (⟨2/5, 2/5, 2/5⟩ : Position).z + itD.height / 2 ≤ 1 :=
  c9_within_container [] itD 1 1 1 0 0 0 0 ⟨2/5, 2/5, 2/5⟩
    (by with_unfolding_all decide)

/-- C10: the reported stats are consistent with the packed list:
`total_weight` is the exact weight sum, `total_volume` the exact volume sum,
and the rounded `left_weight + right_weight` equals `total_weight` up to the
one-decimal rounding of the two aggregates (at most `1/20` each). -/
theorem c10_stats_consistent (reqs : List Item) (cfg : Container) :
    (optimize reqs cfg).stats.total_weight =
      sumWeight (optimize reqs cfg).packed ∧
    (optimize reqs cfg).stats.total_volume =
      sumVolume (optimize reqs cfg).packed ∧
    |(optimize reqs cfg).stats.left_weight +
      (optimize reqs cfg).stats.right_weight -
      (optimize reqs cfg).stats.total_weight| ≤ 1/10 := by
  have hinv := finalState_inv List.dedup reqs cfg
  unfold optimize
  rw [optimize_cargo_eq, summarize_packed, summarize_total_weight,
    summarize_total_volume, summarize_left_weight, summarize_right_weight]
  refine ⟨hinv.weight_eq, hinv.volume_eq, ?_⟩
  by_cases hemp : (finalState List.dedup reqs cfg).packed.isEmpty
  · rw [if_pos hemp, if_pos hemp]
    have hw0 : (finalState List.dedup reqs cfg).current_weight = 0 := by
      rw [hinv.weight_eq, List.isEmpty_iff.mp hemp]
      rfl
    rw [hw0]
    have hr0 : pyRound 0 1 = 0 := by with_unfolding_all decide
    rw [hr0]
    norm_num
  · rw [if_neg hemp, if_neg hemp]
    have hq := hinv.quad_eq
    have ha := pyRound1_abs_le ((finalState List.dedup reqs cfg).front_left_weight +
      (finalState List.dedup reqs cfg).rear_left_weight)
    have hb := pyRound1_abs_le ((finalState List.dedup reqs cfg).front_right_weight +
      (finalState List.dedup reqs cfg).rear_right_weight)
    rw [abs_le] at ha hb ⊢
    constructor <;> linarith

/-- C10 witness: the stats consistency at a concrete three-item run. -/
theorem c10_witness :
    (optimize reqC cB).stats.total_weight =
      sumWeight (optimize reqC cB).packed ∧
    (optimize reqC cB).stats.total_volume =
      sumVolume (optimize reqC cB).packed ∧
    |(optimize reqC cB).stats.left_weight +
      (optimize reqC cB).stats.right_weight -
      (optimize reqC cB).stats.total_weight| ≤ 1/10 :=
  c10_stats_consistent reqC cB

end AirStack
